import Mathlib

/-!
Shallow embedding of the go-mocket query interception / mock resolution
engine (response.go, util.go, stmt.go) and proofs about it.

Go strings are modelled as lists of characters (`Str`), Go maps from
string to int as functions `Str → Nat` with the zero default that the
code's `if times, ok := m[k]` pattern implements, and Go `panic` as an
explicit result constructor.  `database/sql/driver` values are modelled
by the tagged type `GoValue`; hook functions (`func() bool`) by the
boolean they return (`none` = nil hook); callbacks by an opaque identifier
whose invocations are recorded in an event list.
-/

namespace GoMocket

/-- Go strings, modelled as lists of characters. -/
abbrev Str := List Char

/-- A `database/sql/driver` argument value, tagged by its dynamic type as in
the `switch arg.Value.(type)` of `completeStatement`.  `other` carries the
default rendering of a value of any further type. -/
inductive GoValue where
  | int : Int → GoValue
  | str : Str → GoValue
  | bytes : Str → GoValue
  | other : Str → GoValue
deriving DecidableEq, Repr

/-! ### util.go: normalize -/

/-- Code points accepted by Go `unicode.IsSpace` (the ASCII range plus the
Latin-1 and Unicode White_Space code points), used by `strings.TrimSpace`. -/
def goSpaceCodes : List Nat :=
  [0x09, 0x0a, 0x0b, 0x0c, 0x0d, 0x20, 0x85, 0xa0, 0x1680,
   0x2000, 0x2001, 0x2002, 0x2003, 0x2004, 0x2005, 0x2006, 0x2007,
   0x2008, 0x2009, 0x200a, 0x2028, 0x2029, 0x202f, 0x205f, 0x3000]

/-- Character class of Go `unicode.IsSpace` / `strings.TrimSpace`. -/
def isSpaceGo (c : Char) : Bool := goSpaceCodes.contains c.toNat

/-- Character class of the RE2 class `\s` (== `[\t\n\f\r ]`), used by the
`whitespaces` regexp `\s+` of util.go. -/
def isWsRE (c : Char) : Bool := [0x09, 0x0a, 0x0c, 0x0d, 0x20].contains c.toNat

/-- `strings.TrimSpace`: drop leading and trailing `unicode.IsSpace`
characters. -/
def trimSpace (s : Str) : Str :=
  ((s.dropWhile isSpaceGo).reverse.dropWhile isSpaceGo).reverse

/-- `whitespaces.ReplaceAllString(s, " ")` for `whitespaces = \s+`, as a
single pass: the flag records whether the scan is inside a `\s` run whose
single replacement space has already been emitted, so every maximal run of
`\s` characters becomes one space. -/
def collapseAux : Str → Bool → Str
  | [], _ => []
  | c :: rest, afterWs =>
    if isWsRE c then
      if afterWs then collapseAux rest true
      else ' ' :: collapseAux rest true
    else c :: collapseAux rest false

/-- `whitespaces.ReplaceAllString(s, " ")`. -/
def collapseWs (s : Str) : Str := collapseAux s false

/-- util.go `normalize`: trim, then collapse interior whitespace runs. -/
def normalize (origin : Str) : Str := collapseWs (trimSpace origin)

/-! ### util.go (part_000 revision): completeStatement -/

/-- The textual rendering `completeStatement` gives one argument value
(`%d` for the integer types, `%s` for `string` and `[]byte`, default `%v`
rendering otherwise, the latter carried in the `other` payload). -/
def renderTyped : GoValue → Str
  | .int n => (toString n).data
  | .str s => s
  | .bytes s => s
  | .other s => s

/-- `strings.Replace(s, "?", v, 1)`: replace the first `?` by `v`. -/
def replQ (v : Str) : Str → Str
  | [] => []
  | c :: rest => if c = '?' then v ++ rest else c :: replQ v rest

/-- `strings.Contains(s, "?")`. -/
def hasQmark (s : Str) : Bool := s.contains '?'

/-- util.go `completeStatement`: substitute the positional `?` placeholders
left to right by the rendered argument values. -/
def completeStatement (prepareStatment : Str) (args : List GoValue) : Str :=
  if ¬hasQmark prepareStatment ∨ args = [] then prepareStatment
  else args.foldl (fun acc arg => replQ (renderTyped arg) acc) prepareStatment

/-! ### response.go: FakeResponse and its matchers -/

/-- response.go `Exceptions`: the two broken-connection hooks.  A hook
`func() bool` is modelled by the boolean it returns; `none` is a nil hook. -/
structure Exceptions where
  HookQueryBadConnection : Option Bool
  HookExecBadConnection : Option Bool
deriving DecidableEq, Repr

/-- response.go `FakeResponse`.  `Args = none` is the nil argument filter;
`Callback` is the identifier of the registered callback (`none` = nil);
`Error` holds the message of an attached error value; `Excs` is the
embedded `*Exceptions` pointer (`none` = nil). -/
structure FakeResponse where
  Pattern : Str
  MatchPriority : Int
  Strict : Bool
  Args : Option (List GoValue)
  Response : List (List (Str × GoValue))
  Once : Bool
  Triggered : Bool
  ExpectedTriggeredTimes : Nat
  TriggeredTimes : Nat
  Callback : Option Nat
  RowsAffected : Int
  LastInsertId : Int
  Error : Option Str
  Excs : Option Exceptions
deriving DecidableEq, Repr

/-- response.go `FakeResponse.isArgsMatch`: nil filter matches anything,
otherwise the extracted argument values must be deep-equal to the filter. -/
def FakeResponse.isArgsMatch (fr : FakeResponse) (args : List GoValue) : Bool :=
  fr.Args = none || fr.Args = some args

/-- `strings.HasPrefix`, on character lists. -/
def isPre : Str → Str → Bool
  | [], _ => true
  | _ :: _, [] => false
  | a :: as, b :: bs => a = b && isPre as bs

/-- `strings.Contains(hay, pat)`: `pat` occurs as a contiguous substring. -/
def containsSub (hay pat : Str) : Bool :=
  match hay with
  | [] => pat.isEmpty
  | _ :: t => isPre pat hay || containsSub t pat

/-- response.go `FakeResponse.isQueryMatch`: empty pattern matches anything;
strict mode compares for equality, non-strict mode for substring
containment. -/
def FakeResponse.isQueryMatch (fr : FakeResponse) (query : Str) : Bool :=
  if fr.Pattern = [] then true
  else if fr.Strict = true && query = fr.Pattern then true
  else if fr.Strict = false && containsSub query fr.Pattern then true
  else false

/-- response.go `FakeResponse.IsMatch`: an exhausted `Once` mock never
matches; otherwise both the query and the argument matcher must accept. -/
def FakeResponse.IsMatch (fr : FakeResponse) (query : Str) (args : List GoValue) : Bool :=
  if fr.Once && fr.Triggered then false
  else fr.isQueryMatch query && fr.isArgsMatch args

/-- response.go `FakeResponse.MarkAsTriggered` together with the
`resp.TriggeredTimes++` performed by `FindResponse` on the winning mock. -/
def FakeResponse.MarkAsTriggered (fr : FakeResponse) : FakeResponse :=
  { fr with Triggered := true, TriggeredTimes := fr.TriggeredTimes + 1 }

/-! ### response.go: MockCatcher and FindResponse -/

/-- response.go `MockCatcher`.  The two query-frequency maps are modelled
as total functions with the default 0 that the code's
`if times, ok := m[k]` update realizes. -/
structure MockCatcher where
  Mocks : List FakeResponse
  ReceivedQueries : Str → Nat
  NoMatchingQueries : Str → Nat
  Logging : Bool
  PanicOnEmptyResponse : Bool

/-- The comparator passed to `sort.SliceStable` in `FindResponse`:
higher `MatchPriority` first, longer `Pattern` first on equal priority. -/
def lessFR (a b : FakeResponse) : Bool :=
  if a.MatchPriority ≠ b.MatchPriority then decide (a.MatchPriority > b.MatchPriority)
  else decide (a.Pattern.length > b.Pattern.length)

/-- Insert into a sorted list, after every element that `lessFR`-precedes
the inserted one (so insertion keeps equal-key elements in their original
relative order). -/
def insertFR (a : FakeResponse) : List FakeResponse → List FakeResponse
  | [] => [a]
  | b :: rest => if lessFR b a then b :: insertFR a rest else a :: b :: rest

/-- `sort.SliceStable(mc.Mocks, less)`: the stable sort by `lessFR`,
realized as a stable insertion sort. -/
def sortMocks : List FakeResponse → List FakeResponse
  | [] => []
  | a :: rest => insertFR a (sortMocks rest)

/-- The match loop of `FindResponse`: scan the (sorted) mock list, and on
the first mock whose `IsMatch` accepts, mark it triggered, bump its
trigger counter and return it (the list with the winner updated in place,
and the winner). -/
def triggerFirst (query : Str) (args : List GoValue) :
    List FakeResponse → Option (List FakeResponse × FakeResponse)
  | [] => none
  | r :: rest =>
    if r.IsMatch query args then
      some (r.MarkAsTriggered :: rest, r.MarkAsTriggered)
    else
      match triggerFirst query args rest with
      | some (rest', w) => some (r :: rest', w)
      | none => none

/-- The map update `if times, ok := m[k] { m[k] = times + 1 } else { m[k] = 1 }`. -/
def bump (m : Str → Nat) (k : Str) : Str → Nat :=
  fun s => if s = k then m k + 1 else m s

/-- The possible results of `FindResponse`: a matched mock, the dummy
default response, or the `PanicOnEmptyResponse` panic. -/
inductive FindResult where
  | found : FakeResponse → FindResult
  | fallback : FakeResponse → FindResult
  | panicked : FindResult
deriving DecidableEq, Repr

/-- The dummy response `FindResponse` builds when nothing matches:
empty row set, empty (non-nil) exceptions, everything else zero. -/
def dummyResponse : FakeResponse :=
  { Pattern := [], MatchPriority := 0, Strict := false, Args := none,
    Response := [], Once := false, Triggered := false,
    ExpectedTriggeredTimes := 0, TriggeredTimes := 0, Callback := none,
    RowsAffected := 0, LastInsertId := 0, Error := none,
    Excs := some ⟨none, none⟩ }

/-- response.go `MockCatcher.FindResponse`, parameterized by the statement
completion function so that the role of the completed query can be stated:
normalize the query, bump the received table at the completed form, stably
sort the mocks, scan for the first match (marking and returning it), and
otherwise bump the unmatched table and either panic or return the dummy. -/
def MockCatcher.FindResponseWith (complete : Str → List GoValue → Str)
    (mc : MockCatcher) (query : Str) (args : List GoValue) :
    MockCatcher × FindResult :=
  match triggerFirst (normalize query) args (sortMocks mc.Mocks) with
  | some (mocks', w) =>
    ({ mc with
         Mocks := mocks'
         ReceivedQueries := bump mc.ReceivedQueries (complete (normalize query) args) },
      .found w)
  | none =>
    if mc.PanicOnEmptyResponse then
      ({ mc with
           Mocks := sortMocks mc.Mocks
           ReceivedQueries := bump mc.ReceivedQueries (complete (normalize query) args)
           NoMatchingQueries :=
             bump mc.NoMatchingQueries (complete (normalize query) args) },
        .panicked)
    else
      ({ mc with
           Mocks := sortMocks mc.Mocks
           ReceivedQueries := bump mc.ReceivedQueries (complete (normalize query) args)
           NoMatchingQueries :=
             bump mc.NoMatchingQueries (complete (normalize query) args) },
        .fallback dummyResponse)

/-- response.go `MockCatcher.FindResponse`, with the actual
`completeStatement`. -/
def MockCatcher.FindResponse (mc : MockCatcher) (query : Str)
    (args : List GoValue) : MockCatcher × FindResult :=
  mc.FindResponseWith completeStatement query args

/-- response.go `MockCatcher.Attach`: normalize each pattern and append. -/
def MockCatcher.Attach (mc : MockCatcher) (fr : List FakeResponse) : MockCatcher :=
  { mc with Mocks :=
      mc.Mocks ++ fr.map (fun r => { r with Pattern := normalize r.Pattern }) }

/-- response.go `MockCatcher.Reset`: drop all mocks and both tables. -/
def MockCatcher.Reset (mc : MockCatcher) : MockCatcher :=
  { mc with
      Mocks := []
      ReceivedQueries := fun _ => 0
      NoMatchingQueries := fun _ => 0 }

/-! ### stmt.go: statement execution emulation -/

/-- stmt.go `FakeStmt` (the fields the execution paths read). -/
structure FakeStmt where
  q : Str
  command : String
  closed : Bool

/-- A recorded invocation of a response callback: the callback's identifier
and the query text and argument list it was handed. -/
abbrev Event := Nat × Str × List GoValue

/-- The condition `fResp.Exceptions != nil && fResp.Exceptions.HookExecBadConnection != nil
&& fResp.Exceptions.HookExecBadConnection()` of `ExecContext`. -/
def execHookFires (fr : FakeResponse) : Bool :=
  match fr.Excs with
  | some e => e.HookExecBadConnection.getD false
  | none => false

/-- The condition `fResp.Exceptions != nil && fResp.Exceptions.HookQueryBadConnection != nil
&& fResp.Exceptions.HookQueryBadConnection()` of `QueryContext`. -/
def queryHookFires (fr : FakeResponse) : Bool :=
  match fr.Excs with
  | some e => e.HookQueryBadConnection.getD false
  | none => false

/-- The callback invocation `if fResp.Callback != nil { fResp.Callback(smt.q, args) }`:
the event it records, if any. -/
def callbackEvents (fr : FakeResponse) (q : Str) (args : List GoValue) : List Event :=
  match fr.Callback with
  | some cid => [(cid, q, args)]
  | none => []

/-- What `ExecContext` hands back to `database/sql`: `errClosed`, a
`driver.ErrBadConn`, a propagated resolution panic, the `NewFakeResult`
scalar of an INSERT (last insert id and affected count — `NewFakeResult`
itself is not under src/; modelled from the spec §4.5: a scalar result
holding the given insert-id and affected-row count), a
`driver.RowsAffected`, or the unsupported-command error. -/
inductive ExecOutcome where
  | closedErr : ExecOutcome
  | badConn : ExecOutcome
  | panicked : ExecOutcome
  | fakeResult : Int → Int → ExecOutcome
  | rowsAffectedRes : Int → ExecOutcome
  | unsupported : String → ExecOutcome
deriving DecidableEq, Repr

/-- The `switch smt.command` of `ExecContext`: INSERT yields the
`NewFakeResult` scalar (configured id, or the `rand.Int63()` draw `gen`
when the configured id is 0, affected count 1), UPDATE/DELETE yield
`driver.RowsAffected` with the configured count, anything else the
unsupported-command error. -/
def execSwitch (fr : FakeResponse) (command : String) (gen : Int) : ExecOutcome :=
  if command = "INSERT" then
    .fakeResult (if fr.LastInsertId = 0 then gen else fr.LastInsertId) 1
  else if command = "UPDATE" then .rowsAffectedRes fr.RowsAffected
  else if command = "DELETE" then .rowsAffectedRes fr.RowsAffected
  else .unsupported command

/-- The part of stmt.go `FakeStmt.ExecContext` after the response has been
resolved: the exec bad-connection hook (which returns before the callback
would run), the callback invocation, and the command switch.  `gen` stands
for the `rand.Int63()` draw used when no insert id was configured. -/
def execDispatch (fr : FakeResponse) (command : String) (q : Str)
    (args : List GoValue) (gen : Int) : ExecOutcome × List Event :=
  if execHookFires fr then (.badConn, [])
  else (execSwitch fr command gen, callbackEvents fr q args)

/-- Dispatch on the outcome of `Catcher.FindResponse`: a matched or dummy
response goes through `execDispatch`; a resolution panic propagates. -/
def execAfter (pr : MockCatcher × FindResult) (command : String) (q : Str)
    (args : List GoValue) (gen : Int) : MockCatcher × ExecOutcome × List Event :=
  match pr with
  | (mc', .found fr) => (mc', execDispatch fr command q args gen)
  | (mc', .fallback fr) => (mc', execDispatch fr command q args gen)
  | (mc', .panicked) => (mc', .panicked, [])

/-- stmt.go `FakeStmt.ExecContext`: closed check, resolution through the
catcher, then `execDispatch`. -/
def FakeStmt.ExecContext (smt : FakeStmt) (mc : MockCatcher)
    (args : List GoValue) (gen : Int) : MockCatcher × ExecOutcome × List Event :=
  if smt.closed then (mc, .closedErr, [])
  else execAfter (mc.FindResponse smt.q args) smt.command smt.q args gen

/-- Go map indexing `record[col]` on a response row (Go map literals cannot
carry duplicate keys, so the first binding decides). -/
def lookupRec (record : List (Str × GoValue)) (col : Str) : Option GoValue :=
  (record.find? (fun p => p.1 = col)).map (·.2)

/-- One cell of `QueryContext`'s row extraction,
`[]byte(record[col].(string))`: defined only when the column is present
and holds a `string`; on a missing column or any other dynamic type the
type assertion panics (`none`). -/
def cellOf (record : List (Str × GoValue)) (col : Str) : Option Str :=
  match lookupRec record col with
  | some (.str s) => some s
  | _ => none

/-- One row of `QueryContext`'s row extraction: every column of the fixed
column list, in column order; `none` if any cell panics. -/
def materializeRow (cols : List Str) (record : List (Str × GoValue)) :
    Option (List Str) :=
  cols.mapM (cellOf record)

/-- The column list `QueryContext` collects from the first record
(its keys, in that row's iteration order). -/
def firstRowCols (response : List (List (Str × GoValue))) : List Str :=
  match response with
  | [] => []
  | r :: _ => r.map (·.1)

/-- What `QueryContext` hands back: `errClosed`, `driver.ErrBadConn`, a
propagated panic (from resolution or from the row-extraction type
assertion), or the `RowsCursor` content: the fixed column list and every
row's cells in column order. -/
inductive QueryOutcome where
  | closedErr : QueryOutcome
  | badConn : QueryOutcome
  | panicked : QueryOutcome
  | cursor : List Str → List (List Str) → QueryOutcome
deriving DecidableEq, Repr

/-- The part of stmt.go `FakeStmt.QueryContext` after the response has been
resolved: query bad-connection hook, row materialization (which panics on
a missing column or non-string value, before the callback would run), and
the callback invocation. -/
def queryDispatch (fr : FakeResponse) (q : Str) (args : List GoValue) :
    QueryOutcome × List Event :=
  if queryHookFires fr then (.badConn, [])
  else
    match fr.Response.mapM (materializeRow (firstRowCols fr.Response)) with
    | none => (.panicked, [])
    | some rows => (.cursor (firstRowCols fr.Response) rows, callbackEvents fr q args)

/-- The default (`%v`) rendering of a value: decimal for integers, the raw
text for strings, the decimal byte list (as `[104 105]`) for byte slices,
and the carried rendering otherwise. -/
def renderV : GoValue → Str
  | .int n => (toString n).data
  | .str s => s
  | .bytes s =>
    '[' :: (" ".intercalate (s.map (fun c => toString c.toNat))).data ++ [']']
  | .other s => s

/-- Replace the first occurrence of `%v` in a format string. -/
def replPctV (v : Str) : Str → Str
  | [] => []
  | [c] => [c]
  | c₁ :: c₂ :: rest =>
    if c₁ = '%' ∧ c₂ = 'v' then v ++ rest
    else c₁ :: replPctV v (c₂ :: rest)

/-- Whether a format string contains `%v`. -/
def hasPctV : Str → Bool
  | [] => false
  | [_] => false
  | c₁ :: c₂ :: rest => (if c₁ = '%' ∧ c₂ = 'v' then true else hasPctV (c₂ :: rest))

/-- `fmt.Sprintf(format, v)` for the format strings arising in
`QueryContext` (see `sprintfStep`): the first `%v` is replaced by the
value's default rendering; with no `%v` Go appends an `%!(EXTRA ...)`
marker (modelled without the type tag Go prints inside it). -/
def sprintfV (s : Str) (v : GoValue) : Str :=
  if hasPctV s then replPctV (renderV v) s
  else s ++ ('%' :: '!' :: '(' :: 'E' :: 'X' :: 'T' :: 'R' :: 'A' :: ' ' :: renderV v) ++ [')']

/-- The placeholder substitution `QueryContext` performs on `smt.q` before
resolving (`strings.Replace(q, "?", "%v", 1)` then `fmt.Sprintf(q, v)`).
The `fmt.Sprintf` call is modelled for format strings whose only verb is
the just-inserted `%v` — the form this code produces. -/
def sprintfStep (q : Str) (v : GoValue) : Str :=
  sprintfV (replQ ('%' :: ['v']) q) v

/-- The substitution loop of `QueryContext` (lines 92–98): when arguments
are present, one `Replace`/`Sprintf` step per argument. -/
def querySubst (q : Str) (args : List GoValue) : Str :=
  if args = [] then q else args.foldl sprintfStep q

/-- Dispatch on the outcome of `Catcher.FindResponse` for the query path. -/
def queryAfter (pr : MockCatcher × FindResult) (q : Str) (args : List GoValue) :
    MockCatcher × QueryOutcome × List Event :=
  match pr with
  | (mc', .found fr) => (mc', queryDispatch fr q args)
  | (mc', .fallback fr) => (mc', queryDispatch fr q args)
  | (mc', .panicked) => (mc', .panicked, [])

/-- stmt.go `FakeStmt.QueryContext`: closed check, in-place placeholder
substitution into `smt.q`, resolution through the catcher, then
`queryDispatch` (which hands the substituted query to the callback). -/
def FakeStmt.QueryContext (smt : FakeStmt) (mc : MockCatcher)
    (args : List GoValue) : MockCatcher × QueryOutcome × List Event :=
  if smt.closed then (mc, .closedErr, [])
  else
    queryAfter (mc.FindResponse (querySubst smt.q args) args)
      (querySubst smt.q args) args


/-! ### Lemmas about the normalizer -/

theorem wsRE_spaceGo {c : Char} (h : isWsRE c = true) : isSpaceGo c = true := by
  simp [isWsRE] at h
  simp [isSpaceGo, goSpaceCodes]
  omega

theorem spaceGo_wsRE {c : Char} (h : isSpaceGo c = false) : isWsRE c = false := by
  cases hw : isWsRE c
  · rfl
  · rw [wsRE_spaceGo hw] at h; simp at h

theorem getLast?_cons_ne {a : Char} {l : Str} (h : l ≠ []) :
    (a :: l).getLast? = l.getLast? := by
  cases l with
  | nil => exact absurd rfl h
  | cons b t => simp [List.getLast?_cons_cons]

theorem collapseWs_nil : collapseWs [] = [] := rfl

theorem collapseWs_cons_neg {c : Char} (t : Str) (h : isWsRE c = false) :
    collapseWs (c :: t) = c :: collapseWs t := by
  rw [collapseWs, collapseAux, if_neg (by simp [h])]
  rfl

theorem dropWhile_head_false {p : Char → Bool} {l : Str} {c : Char} {cs : Str}
    (h : l.dropWhile p = c :: cs) : p c = false := by
  have hne : l.dropWhile p ≠ [] := by simp [h]
  have h2 := List.head_dropWhile_not p l hne
  have h3 : (l.dropWhile p).head hne = c := by simp [h]
  rwa [h3] at h2

theorem collapseAux_idem (l : Str) :
    (∀ b, collapseAux (collapseAux l b) false = collapseAux l b)
    ∧ collapseAux (collapseAux l true) true = collapseAux l true := by
  induction l with
  | nil => exact ⟨fun _ => rfl, rfl⟩
  | cons c t ih =>
    by_cases hc : isWsRE c = true
    · constructor
      · intro b
        cases b with
        | true =>
          rw [collapseAux, if_pos hc, if_pos rfl]
          exact ih.1 true
        | false =>
          rw [collapseAux, if_pos hc, if_neg (by simp)]
          rw [collapseAux, if_pos (by decide), if_neg (by simp)]
          rw [ih.2]
      · rw [collapseAux, if_pos hc, if_pos rfl]
        exact ih.2
    · have hc' : isWsRE c = false := by simpa using hc
      constructor
      · intro b
        rw [collapseAux, if_neg (by simp [hc'])]
        rw [collapseAux, if_neg (by simp [hc'])]
        rw [ih.1 false]
      · rw [collapseAux, if_neg (by simp [hc'])]
        rw [collapseAux, if_neg (by simp [hc'])]
        rw [ih.1 false]

theorem collapseWs_collapseWs (l : Str) : collapseWs (collapseWs l) = collapseWs l :=
  (collapseAux_idem l).1 false

theorem collapseAux_ne_nil : ∀ {t : Str} {c : Char}, t.getLast? = some c →
    isWsRE c = false → ∀ b, collapseAux t b ≠ [] := by
  intro t
  induction t with
  | nil => intro c h _ _; simp at h
  | cons d t' ih =>
    intro c h hc b
    by_cases hd : isWsRE d = true
    · have ht' : t' ≠ [] := by
        rintro rfl
        simp only [List.getLast?_singleton, Option.some.injEq] at h
        subst h
        rw [hd] at hc
        exact Bool.true_eq_false.mp hc
      have h' : t'.getLast? = some c := by rwa [getLast?_cons_ne ht'] at h
      cases b with
      | true =>
        rw [collapseAux, if_pos hd, if_pos rfl]
        exact ih h' hc true
      | false =>
        rw [collapseAux, if_pos hd, if_neg (by simp)]
        simp
    · have hd' : isWsRE d = false := by simpa using hd
      rw [collapseAux, if_neg (by simp [hd'])]
      simp

theorem collapseAux_getLast? : ∀ {t : Str} {c : Char}, t.getLast? = some c →
    isWsRE c = false → ∀ b, (collapseAux t b).getLast? = some c := by
  intro t
  induction t with
  | nil => intro c h _ _; simp at h
  | cons d t' ih =>
    intro c h hc b
    by_cases hd : isWsRE d = true
    · have ht' : t' ≠ [] := by
        rintro rfl
        simp only [List.getLast?_singleton, Option.some.injEq] at h
        subst h
        rw [hd] at hc
        exact Bool.true_eq_false.mp hc
      have h' : t'.getLast? = some c := by rwa [getLast?_cons_ne ht'] at h
      cases b with
      | true =>
        rw [collapseAux, if_pos hd, if_pos rfl]
        exact ih h' hc true
      | false =>
        rw [collapseAux, if_pos hd, if_neg (by simp)]
        rw [getLast?_cons_ne (collapseAux_ne_nil h' hc true)]
        exact ih h' hc true
    · have hd' : isWsRE d = false := by simpa using hd
      rw [collapseAux, if_neg (by simp [hd'])]
      by_cases ht' : t' = []
      · subst ht'
        simp only [List.getLast?_singleton, Option.some.injEq] at h
        subst h
        rfl
      · have h' : t'.getLast? = some c := by rwa [getLast?_cons_ne ht'] at h
        rw [getLast?_cons_ne (collapseAux_ne_nil h' hc false)]
        exact ih h' hc false

theorem collapseWs_getLast? {l : Str} {c : Char} (h : l.getLast? = some c)
    (hc : isWsRE c = false) : (collapseWs l).getLast? = some c :=
  collapseAux_getLast? h hc false

theorem dropWhile_eq_self {p : Char → Bool} {l : Str}
    (h : ∀ c, l.head? = some c → p c = false) : l.dropWhile p = l := by
  cases l with
  | nil => rfl
  | cons c t => exact List.dropWhile_cons_of_neg (by simp [h c rfl])

theorem trimSpace_eq_self {l : Str}
    (hh : ∀ c, l.head? = some c → isSpaceGo c = false)
    (hl : ∀ c, l.getLast? = some c → isSpaceGo c = false) : trimSpace l = l := by
  unfold trimSpace
  rw [dropWhile_eq_self hh]
  have : l.reverse.dropWhile isSpaceGo = l.reverse := by
    apply dropWhile_eq_self
    intro c hc
    rw [List.head?_reverse] at hc
    exact hl c hc
  rw [this, List.reverse_reverse]

theorem trimSpace_head {l : Str} {c : Char} (h : (trimSpace l).head? = some c) :
    isSpaceGo c = false := by
  unfold trimSpace at h
  rw [List.head?_reverse] at h
  set x := (l.dropWhile isSpaceGo).reverse.dropWhile isSpaceGo with hx
  obtain ⟨pre, hpre⟩ := (List.dropWhile_suffix (l := (l.dropWhile isSpaceGo).reverse) isSpaceGo)
  have hxne : x ≠ [] := by
    intro hnil; rw [hnil] at h; simp at h
  have h2 : (l.dropWhile isSpaceGo).reverse.getLast? = some c := by
    rw [← hpre, List.getLast?_append_of_ne_nil pre hxne]; exact h
  rw [List.getLast?_reverse] at h2
  cases hd : l.dropWhile isSpaceGo with
  | nil => rw [hd] at h2; simp at h2
  | cons d ds =>
    rw [hd] at h2
    simp only [List.head?_cons, Option.some.injEq] at h2
    subst h2
    exact dropWhile_head_false hd

theorem trimSpace_last {l : Str} {c : Char} (h : (trimSpace l).getLast? = some c) :
    isSpaceGo c = false := by
  unfold trimSpace at h
  rw [List.getLast?_reverse] at h
  cases hd : (l.dropWhile isSpaceGo).reverse.dropWhile isSpaceGo with
  | nil => rw [hd] at h; simp at h
  | cons d ds =>
    rw [hd] at h
    simp only [List.head?_cons, Option.some.injEq] at h
    subst h
    exact dropWhile_head_false hd

/-- C10: query normalization is idempotent: normalizing an already
normalized string never changes it. -/
theorem C10_normalize_idempotent (s : Str) : normalize (normalize s) = normalize s := by
  unfold normalize
  have htrim : trimSpace (collapseWs (trimSpace s)) = collapseWs (trimSpace s) := by
    apply trimSpace_eq_self
    · intro c hc
      cases ht : trimSpace s with
      | nil => rw [ht, collapseWs_nil] at hc; simp at hc
      | cons d ds =>
        have hd : isSpaceGo d = false := trimSpace_head (by rw [ht]; rfl)
        rw [ht, collapseWs_cons_neg ds (spaceGo_wsRE hd)] at hc
        simp only [List.head?_cons, Option.some.injEq] at hc
        subst hc; exact hd
    · intro c hc
      cases ht : (trimSpace s).getLast? with
      | none =>
        have : trimSpace s = [] := by
          cases h' : trimSpace s with
          | nil => rfl
          | cons d ds => rw [h'] at ht; simp [getLast?_cons_ne] at ht
        rw [this, collapseWs_nil] at hc; simp at hc
      | some d =>
        have hd : isSpaceGo d = false := trimSpace_last ht
        have := collapseWs_getLast? ht (spaceGo_wsRE hd)
        rw [this] at hc
        simp only [Option.some.injEq] at hc
        subst hc; exact hd
  rw [htrim, collapseWs_collapseWs]

/-! ### Lemmas about completeStatement -/

theorem hasQmark_cons (c : Char) (t : Str) :
    hasQmark (c :: t) = ((c = '?' : Bool) || hasQmark t) := by
  rw [Bool.eq_iff_iff]
  simp only [hasQmark, List.contains_cons, Bool.or_eq_true, beq_iff_eq, decide_eq_true_eq]
  constructor
  · rintro (h | h)
    · exact Or.inl h.symm
    · exact Or.inr h
  · rintro (h | h)
    · exact Or.inl h.symm
    · exact Or.inr h

/-- A replacement of the first placeholder is the identity when there is no
placeholder left: util.go's loop stops changing the statement as soon as
the placeholders are exhausted. -/
theorem replQ_no_q {s : Str} (v : Str) (h : hasQmark s = false) : replQ v s = s := by
  induction s with
  | nil => rfl
  | cons c t ih =>
    rw [hasQmark_cons] at h
    simp only [Bool.or_eq_false_iff, decide_eq_false_iff_not] at h
    rw [replQ, if_neg h.1, ih h.2]

theorem foldl_replQ_no_q {s : Str} (args : List GoValue) (h : hasQmark s = false) :
    args.foldl (fun acc arg => replQ (renderTyped arg) acc) s = s := by
  induction args with
  | nil => rfl
  | cons a rest ih => rw [List.foldl_cons, replQ_no_q _ h, ih]

/-- Modelled from the spec (§4.2 Statement Completer): replace placeholder
occurrences left to right by the rendered arguments, one placeholder per
argument, stopping as soon as either placeholders or arguments are
exhausted. -/
def completeSpecGo : Str → List GoValue → Str
  | s, [] => s
  | s, a :: rest =>
    if hasQmark s then completeSpecGo (replQ (renderTyped a) s) rest else s

/-- Modelled from the spec (§4.2 Statement Completer): the text is returned
unchanged when it has no placeholder or no arguments are supplied. -/
def completeStatementSpec (s : Str) (args : List GoValue) : Str :=
  if ¬hasQmark s ∨ args = [] then s else completeSpecGo s args

theorem foldl_eq_completeSpecGo (args : List GoValue) (s : Str) :
    args.foldl (fun acc arg => replQ (renderTyped arg) acc) s = completeSpecGo s args := by
  induction args generalizing s with
  | nil => rfl
  | cons a rest ih =>
    rw [List.foldl_cons, completeSpecGo]
    cases hq : hasQmark s with
    | true => rw [if_pos rfl, ih]
    | false =>
      rw [if_neg (by simp)]
      rw [replQ_no_q _ hq, foldl_replQ_no_q rest hq]

/-- C8: statement completion returns the text unchanged when it has no
placeholder marker or no arguments; otherwise it replaces placeholders
left to right by the rendered arguments, one placeholder per argument,
stopping as soon as either placeholders or arguments run out (the
behaviour expressed by `completeStatementSpec`). -/
theorem C8_completeStatement_spec (s : Str) (args : List GoValue) :
    completeStatement s args = completeStatementSpec s args
    ∧ (hasQmark s = false ∨ args = [] → completeStatement s args = s) := by
  constructor
  · unfold completeStatement completeStatementSpec
    by_cases hg : ¬hasQmark s ∨ args = []
    · rw [if_pos hg, if_pos hg]
    · rw [if_neg hg, if_neg hg, foldl_eq_completeSpecGo]
  · intro h
    unfold completeStatement
    have hg : ¬hasQmark s = true ∨ args = [] := by
      rcases h with h | h
      · exact Or.inl (by simp [h])
      · exact Or.inr h
    rw [if_pos hg]

/-- C8 witness: a concrete run with a placeholder and with exhausted
arguments. -/
theorem C8_completeStatement_spec_witness :
    completeStatement ('a' :: []) (GoValue.int 3 :: []) = 'a' :: [] :=
  (C8_completeStatement_spec ('a' :: []) (GoValue.int 3 :: [])).2 (Or.inl (by decide))

/-! ### Lemmas about the stable sort and the match loop -/

/-- The sort key order of the claim: strictly higher priority, or equal
priority and at least as long a pattern. -/
def keyGE (a b : FakeResponse) : Prop :=
  a.MatchPriority > b.MatchPriority ∨
    (a.MatchPriority = b.MatchPriority ∧ a.Pattern.length ≥ b.Pattern.length)

/-- Same sort key: same priority and same pattern length. -/
def sameKey (a b : FakeResponse) : Bool :=
  decide (a.MatchPriority = b.MatchPriority) &&
    decide (a.Pattern.length = b.Pattern.length)

theorem lessFR_false_iff (a b : FakeResponse) : lessFR a b = false ↔ keyGE b a := by
  unfold lessFR keyGE
  by_cases h : a.MatchPriority = b.MatchPriority <;> simp [h] <;> omega

theorem keyGE_refl (a : FakeResponse) : keyGE a a := by unfold keyGE; omega

theorem keyGE_trans {a b c : FakeResponse} (h1 : keyGE a b) (h2 : keyGE b c) :
    keyGE a c := by
  unfold keyGE at *; omega

theorem lessFR_false_trans {x b a : FakeResponse} (h1 : lessFR x b = false)
    (h2 : lessFR b a = false) : lessFR x a = false :=
  (lessFR_false_iff x a).mpr
    (keyGE_trans ((lessFR_false_iff b a).mp h2) ((lessFR_false_iff x b).mp h1))

theorem lessFR_true_iff (a b : FakeResponse) : lessFR a b = true ↔
    (a.MatchPriority > b.MatchPriority ∨
      (a.MatchPriority = b.MatchPriority ∧ a.Pattern.length > b.Pattern.length)) := by
  unfold lessFR
  by_cases h : a.MatchPriority = b.MatchPriority <;> simp [h] <;> omega

theorem lessFR_asymm {a b : FakeResponse} (h : lessFR b a = true) :
    lessFR a b = false := by
  rw [lessFR_false_iff]
  unfold keyGE
  rw [lessFR_true_iff] at h
  omega

theorem sameKey_lessFR_false {a b k : FakeResponse} (h1 : sameKey a k = true)
    (h2 : sameKey b k = true) : lessFR b a = false := by
  unfold sameKey at h1 h2
  simp only [Bool.and_eq_true, decide_eq_true_eq] at h1 h2
  rw [lessFR_false_iff]
  unfold keyGE
  omega

theorem insertFR_split (a : FakeResponse) (l : List FakeResponse) :
    ∃ l₁ l₂, l = l₁ ++ l₂ ∧ insertFR a l = l₁ ++ a :: l₂ ∧
      ∀ b ∈ l₁, lessFR b a = true := by
  induction l with
  | nil => exact ⟨[], [], rfl, rfl, by simp⟩
  | cons b rest ih =>
    by_cases h : lessFR b a
    · obtain ⟨l₁, l₂, h1, h2, h3⟩ := ih
      refine ⟨b :: l₁, l₂, by simp [← h1], ?_, ?_⟩
      · rw [insertFR, if_pos h, h2]; rfl
      · intro x hx
        rcases List.mem_cons.mp hx with rfl | hx
        · exact h
        · exact h3 x hx
    · refine ⟨[], b :: rest, rfl, ?_, by simp⟩
      rw [insertFR, if_neg h]
      simp

theorem mem_insertFR {x a : FakeResponse} {l : List FakeResponse} :
    x ∈ insertFR a l ↔ x = a ∨ x ∈ l := by
  obtain ⟨l₁, l₂, h1, h2, -⟩ := insertFR_split a l
  subst h1
  rw [h2]
  simp only [List.mem_append, List.mem_cons]
  tauto

theorem mem_sortMocks {x : FakeResponse} {l : List FakeResponse} :
    x ∈ sortMocks l ↔ x ∈ l := by
  induction l with
  | nil => simp [sortMocks]
  | cons a rest ih =>
    rw [sortMocks, mem_insertFR, ih]
    simp [List.mem_cons]

theorem insertFR_pairwise {a : FakeResponse} {l : List FakeResponse}
    (h : l.Pairwise fun x y => lessFR y x = false) :
    (insertFR a l).Pairwise fun x y => lessFR y x = false := by
  induction l with
  | nil => simp [insertFR]
  | cons b rest ih =>
    rw [List.pairwise_cons] at h
    by_cases hb : lessFR b a
    · rw [insertFR, if_pos hb, List.pairwise_cons]
      refine ⟨?_, ih h.2⟩
      intro x hx
      rcases mem_insertFR.mp hx with rfl | hx
      · exact lessFR_asymm hb
      · exact h.1 x hx
    · rw [insertFR, if_neg hb, List.pairwise_cons]
      have hba : lessFR b a = false := by simpa using hb
      refine ⟨?_, List.pairwise_cons.mpr h⟩
      intro x hx
      rcases List.mem_cons.mp hx with rfl | hx
      · exact hba
      · exact lessFR_false_trans (h.1 x hx) hba

theorem sortMocks_pairwise (l : List FakeResponse) :
    (sortMocks l).Pairwise fun x y => lessFR y x = false := by
  induction l with
  | nil => simp [sortMocks]
  | cons a rest ih => exact insertFR_pairwise ih

theorem filter_insertFR (k a : FakeResponse) (l : List FakeResponse) :
    (insertFR a l).filter (fun x => sameKey x k)
      = if sameKey a k then a :: l.filter (fun x => sameKey x k)
        else l.filter (fun x => sameKey x k) := by
  obtain ⟨l₁, l₂, h1, h2, h3⟩ := insertFR_split a l
  subst h1
  rw [h2, List.filter_append, List.filter_cons, List.filter_append]
  by_cases ha : sameKey a k
  · have hl₁ : l₁.filter (fun x => sameKey x k) = [] := by
      rw [List.filter_eq_nil_iff]
      intro b hb hbk
      have := sameKey_lessFR_false ha hbk
      rw [h3 b hb] at this
      exact Bool.true_eq_false.mp this
    simp [ha, hl₁]
  · simp [ha]

theorem filter_sortMocks (k : FakeResponse) (l : List FakeResponse) :
    (sortMocks l).filter (fun x => sameKey x k)
      = l.filter (fun x => sameKey x k) := by
  induction l with
  | nil => simp [sortMocks]
  | cons a rest ih =>
    rw [sortMocks, filter_insertFR, List.filter_cons, ih]

theorem triggerFirst_some {q : Str} {args : List GoValue} :
    ∀ {l l' : List FakeResponse} {w : FakeResponse},
      triggerFirst q args l = some (l', w) →
      ∃ l₁ w₀ l₂, l = l₁ ++ w₀ :: l₂
        ∧ l' = l₁ ++ w₀.MarkAsTriggered :: l₂
        ∧ w = w₀.MarkAsTriggered
        ∧ w₀.IsMatch q args = true
        ∧ ∀ e ∈ l₁, e.IsMatch q args = false := by
  intro l
  induction l with
  | nil => intro l' w h; simp [triggerFirst] at h
  | cons r rest ih =>
    intro l' w h
    rw [triggerFirst] at h
    by_cases hm : r.IsMatch q args
    · rw [if_pos hm] at h
      simp only [Option.some.injEq, Prod.mk.injEq] at h
      exact ⟨[], r, rest, rfl, by simp [h.1], h.2.symm, hm, by simp⟩
    · rw [if_neg hm] at h
      cases htf : triggerFirst q args rest with
      | some pr =>
        obtain ⟨rest', w'⟩ := pr
        rw [htf] at h
        simp only [Option.some.injEq, Prod.mk.injEq] at h
        obtain ⟨l₁, w₀, l₂, e1, e2, e3, e4, e5⟩ := ih htf
        refine ⟨r :: l₁, w₀, l₂, by simp [e1], by simp [← h.1, e2], ?_, e4, ?_⟩
        · rw [← h.2, e3]
        · intro e he
          rcases List.mem_cons.mp he with rfl | he
          · simpa using hm
          · exact e5 e he
      | none =>
        rw [htf] at h
        simp at h

theorem triggerFirst_none {q : Str} {args : List GoValue} :
    ∀ {l : List FakeResponse}, (∀ e ∈ l, e.IsMatch q args = false) →
      triggerFirst q args l = none := by
  intro l
  induction l with
  | nil => intro _; rfl
  | cons r rest ih =>
    intro h
    rw [triggerFirst, if_neg (by simp [h r (List.mem_cons_self r rest)]),
      ih (fun e he => h e (List.mem_cons_of_mem r he))]

theorem find?_append_first {p : FakeResponse → Bool} {y : FakeResponse}
    (xs ys : List FakeResponse) (hxs : ∀ x ∈ xs, p x = false) (hy : p y = true) :
    (xs ++ y :: ys).find? p = some y := by
  induction xs with
  | nil => simp [List.find?_cons, hy]
  | cons x xt ih =>
    rw [List.cons_append, List.find?_cons, hxs x (List.mem_cons_self x xt)]
    exact ih (fun z hz => hxs z (List.mem_cons_of_mem x hz))

theorem sameKey_refl (a : FakeResponse) : sameKey a a = true := by simp [sameKey]

theorem find?_and_filter (p q : FakeResponse → Bool) (l : List FakeResponse) :
    l.find? (fun x => p x && q x) = (l.filter q).find? p := by
  induction l with
  | nil => rfl
  | cons x t ih =>
    by_cases hq : q x
    · by_cases hp : p x
      · simp [List.find?_cons, List.filter_cons, hp, hq]
      · simp only [List.filter_cons, if_pos hq]
        simp [List.find?_cons, hp, hq, ih]
    · simp only [List.filter_cons, if_neg hq]
      have : (p x && q x) = false := by simp [hq]
      simp [List.find?_cons, this, ih]

theorem FindResponseWith_found {f : Str → List GoValue → Str} {mc : MockCatcher}
    {q : Str} {args : List GoValue} {mocks' : List FakeResponse} {w : FakeResponse}
    (htf : triggerFirst (normalize q) args (sortMocks mc.Mocks) = some (mocks', w)) :
    mc.FindResponseWith f q args
      = ({ mc with
             Mocks := mocks'
             ReceivedQueries := bump mc.ReceivedQueries (f (normalize q) args) },
          .found w) := by
  unfold MockCatcher.FindResponseWith
  rw [htf]

theorem FindResponseWith_none {f : Str → List GoValue → Str} {mc : MockCatcher}
    {q : Str} {args : List GoValue}
    (htf : triggerFirst (normalize q) args (sortMocks mc.Mocks) = none) :
    mc.FindResponseWith f q args
      = ({ mc with
             Mocks := sortMocks mc.Mocks
             ReceivedQueries := bump mc.ReceivedQueries (f (normalize q) args)
             NoMatchingQueries := bump mc.NoMatchingQueries (f (normalize q) args) },
          if mc.PanicOnEmptyResponse then .panicked else .fallback dummyResponse) := by
  unfold MockCatcher.FindResponseWith
  rw [htf]
  by_cases hp : mc.PanicOnEmptyResponse <;> simp [hp]

/-- C1: when resolution returns a matched mock, it is a marked copy
(`Triggered` set, trigger counter incremented) of an eligible matching
entry `w₀` that (a) has a `keyGE`-maximal sort key among all matching
eligible entries, and (b) is the first entry of the (registration-ordered)
mock list among the matching eligible entries with exactly its key — the
stable sort breaks exact ties by registration order; the marked winner is
stored back in the mock list. -/
theorem C1_resolution_winner (mc : MockCatcher) (q : Str) (args : List GoValue)
    (w : FakeResponse) (h : (mc.FindResponse q args).2 = .found w) :
    ∃ w₀ : FakeResponse,
      w = w₀.MarkAsTriggered
      ∧ w.Triggered = true
      ∧ w.TriggeredTimes = w₀.TriggeredTimes + 1
      ∧ w₀.IsMatch (normalize q) args = true
      ∧ w ∈ (mc.FindResponse q args).1.Mocks
      ∧ (∀ e ∈ mc.Mocks, e.IsMatch (normalize q) args = true → keyGE w₀ e)
      ∧ mc.Mocks.find?
          (fun e => e.IsMatch (normalize q) args && sameKey e w₀) = some w₀ := by
  unfold MockCatcher.FindResponse MockCatcher.FindResponseWith at h ⊢
  cases htf : triggerFirst (normalize q) args (sortMocks mc.Mocks) with
  | none =>
    rw [htf] at h
    by_cases hp : mc.PanicOnEmptyResponse <;> simp [hp] at h
  | some pr =>
    obtain ⟨mocks', w'⟩ := pr
    rw [htf] at h
    simp only [FindResult.found.injEq] at h
    subst h
    obtain ⟨l₁, w₀, l₂, e1, e2, e3, e4, e5⟩ := triggerFirst_some htf
    subst e3
    refine ⟨w₀, rfl, rfl, rfl, e4, ?_, ?_, ?_⟩
    · simp only [e2]
      simp
    · intro e he hme
      have hes : e ∈ sortMocks mc.Mocks := mem_sortMocks.mpr he
      rw [e1] at hes
      rcases List.mem_append.mp hes with he1 | he2
      · rw [e5 e he1] at hme
        exact absurd hme (by simp)
      · rcases List.mem_cons.mp he2 with rfl | he2
        · exact keyGE_refl e
        · have hpw := sortMocks_pairwise mc.Mocks
          rw [e1] at hpw
          have := (List.pairwise_append.mp hpw).2.1
          rw [List.pairwise_cons] at this
          exact (lessFR_false_iff e w₀).mp (this.1 e he2)
    · rw [find?_and_filter, ← filter_sortMocks w₀, e1, List.filter_append,
        List.filter_cons, if_pos (sameKey_refl w₀)]
      apply find?_append_first
      · intro x hx
        exact e5 x (List.mem_of_mem_filter hx)
      · exact e4

/-- A sample catch-all mock and a one-mock catcher used by the concrete
witnesses below. -/
def wMock : FakeResponse := dummyResponse

def wCatcher : MockCatcher :=
  { Mocks := [wMock], ReceivedQueries := fun _ => 0,
    NoMatchingQueries := fun _ => 0, Logging := false,
    PanicOnEmptyResponse := false }

/-- C1 witness: resolving a concrete query against `wCatcher` returns the
marked copy of `wMock` with all the properties of `C1_resolution_winner`. -/
theorem C1_resolution_winner_witness :
    ∃ w₀ : FakeResponse,
      wMock.MarkAsTriggered = w₀.MarkAsTriggered
      ∧ wMock.MarkAsTriggered.Triggered = true
      ∧ wMock.MarkAsTriggered.TriggeredTimes = w₀.TriggeredTimes + 1
      ∧ w₀.IsMatch (normalize ('S' :: [])) [] = true
      ∧ wMock.MarkAsTriggered ∈ (wCatcher.FindResponse ('S' :: []) []).1.Mocks
      ∧ (∀ e ∈ wCatcher.Mocks,
          e.IsMatch (normalize ('S' :: [])) [] = true → keyGE w₀ e)
      ∧ wCatcher.Mocks.find?
          (fun e => e.IsMatch (normalize ('S' :: [])) [] && sameKey e w₀)
            = some w₀ :=
  C1_resolution_winner wCatcher ('S' :: []) [] wMock.MarkAsTriggered (by decide)

/-- C4: the completed (placeholder-substituted) statement feeds only the two
frequency tables: the resolution result and the updated mock list are the
same under ANY completion function, and only the completed key's counts
change; matching itself receives the normalized, unsubstituted query. -/
theorem C4_completed_only_bookkeeping (f g : Str → List GoValue → Str)
    (mc : MockCatcher) (q : Str) (args : List GoValue) :
    (mc.FindResponseWith f q args).2 = (mc.FindResponseWith g q args).2
    ∧ (mc.FindResponseWith f q args).1.Mocks = (mc.FindResponseWith g q args).1.Mocks
    ∧ (mc.FindResponse q args).2 = (mc.FindResponseWith f q args).2
    ∧ (∀ s, s ≠ f (normalize q) args →
        (mc.FindResponseWith f q args).1.ReceivedQueries s = mc.ReceivedQueries s
        ∧ (mc.FindResponseWith f q args).1.NoMatchingQueries s = mc.NoMatchingQueries s)
    ∧ (mc.FindResponseWith f q args).1.ReceivedQueries (f (normalize q) args)
        = mc.ReceivedQueries (f (normalize q) args) + 1 := by
  cases htf : triggerFirst (normalize q) args (sortMocks mc.Mocks) with
  | some pr =>
    obtain ⟨mocks', w⟩ := pr
    rw [MockCatcher.FindResponse, FindResponseWith_found htf,
      FindResponseWith_found htf, FindResponseWith_found htf]
    refine ⟨rfl, rfl, rfl, ?_, by simp [bump]⟩
    intro s hs
    exact ⟨by simp [bump, hs], rfl⟩
  | none =>
    rw [MockCatcher.FindResponse, FindResponseWith_none htf,
      FindResponseWith_none htf, FindResponseWith_none htf]
    refine ⟨rfl, rfl, rfl, ?_, by simp [bump]⟩
    intro s hs
    exact ⟨by simp [bump, hs], by simp [bump, hs]⟩

/-- C4 witness: at a concrete catcher and query, the result is independent
of the completion function and a key other than the completed query keeps
its received count. -/
theorem C4_completed_only_bookkeeping_witness :
    (wCatcher.FindResponseWith completeStatement [] []).2
      = (wCatcher.FindResponseWith (fun s _ => s) [] []).2
    ∧ (wCatcher.FindResponseWith completeStatement [] []).1.ReceivedQueries
        ('X' :: []) = wCatcher.ReceivedQueries ('X' :: []) := by
  have h := C4_completed_only_bookkeeping completeStatement (fun s _ => s)
    wCatcher [] []
  have hne : ('X' :: []) ≠ completeStatement (normalize []) [] := by decide
  exact ⟨h.1, (h.2.2.2.1 ('X' :: []) hne).1⟩

/-- A non-strict mock whose pattern is the literal rendering `27` of an
argument value, with a one-row reply. -/
def frC4 : FakeResponse :=
  { dummyResponse with
      Pattern := '2' :: '7' :: []
      Response := [[(('a' :: []), .str ('1' :: []))]] }

/-- A catcher holding only `frC4`. -/
def mcC4 : MockCatcher :=
  { Mocks := [frC4], ReceivedQueries := fun _ => 0,
    NoMatchingQueries := fun _ => 0, Logging := false,
    PanicOnEmptyResponse := false }

/-- C4 counterexample: the entry with pattern `27` does NOT match the
normalized unsubstituted query `?`, yet a read execution of `?` with the
argument `27` returns that entry's row — on the read path the statement
text has the argument values substituted into it before matching. -/
theorem C4_query_path_matches_substituted :
    frC4.IsMatch (normalize ('?' :: [])) (GoValue.str ('2' :: '7' :: []) :: []) = false
    ∧ ((⟨('?' :: []), "SELECT", false⟩ : FakeStmt).QueryContext mcC4
          (GoValue.str ('2' :: '7' :: []) :: [])).2.1
        = .cursor (('a' :: []) :: []) ((('1' :: []) :: []) :: []) := by
  decide

/-- C3: when no registered mock matches (also with zero mocks), resolution
bumps the unmatched table at the completed query by one and returns the
default empty outcome (empty row set, no error) — unless the
panic-on-empty-response flag is set, in which case it panics instead. -/
theorem C3_no_match_default (mc : MockCatcher) (q : Str) (args : List GoValue)
    (hnone : ∀ fr ∈ mc.Mocks, fr.IsMatch (normalize q) args = false) :
    (mc.FindResponse q args).1.NoMatchingQueries (completeStatement (normalize q) args)
      = mc.NoMatchingQueries (completeStatement (normalize q) args) + 1
    ∧ (mc.PanicOnEmptyResponse = false →
        (mc.FindResponse q args).2 = .fallback dummyResponse)
    ∧ (mc.PanicOnEmptyResponse = true → (mc.FindResponse q args).2 = .panicked)
    ∧ dummyResponse.Response = [] ∧ dummyResponse.Error = none := by
  have htf : triggerFirst (normalize q) args (sortMocks mc.Mocks) = none :=
    triggerFirst_none (fun e he => hnone e (mem_sortMocks.mp he))
  rw [MockCatcher.FindResponse, FindResponseWith_none htf]
  refine ⟨by simp [bump], ?_, ?_, rfl, rfl⟩
  · intro hp; simp [hp]
  · intro hp; simp [hp]

/-- A catcher with no mocks at all, for the no-match witnesses. -/
def wEmpty : MockCatcher :=
  { Mocks := [], ReceivedQueries := fun _ => 0,
    NoMatchingQueries := fun _ => 0, Logging := false,
    PanicOnEmptyResponse := false }

/-- C3 witness: resolving against the empty catcher bumps the unmatched
count of the completed query and yields the dummy response. -/
theorem C3_no_match_default_witness :
    (wEmpty.FindResponse ('Q' :: []) []).1.NoMatchingQueries
        (completeStatement (normalize ('Q' :: [])) [])
      = wEmpty.NoMatchingQueries (completeStatement (normalize ('Q' :: []))  []) + 1
    ∧ (wEmpty.FindResponse ('Q' :: []) []).2 = .fallback dummyResponse := by
  have h := C3_no_match_default wEmpty ('Q' :: []) [] (by simp [wEmpty])
  exact ⟨h.1, h.2.1 rfl⟩

/-- C2: a `once` mock that has `triggered` set never matches again, and no
resolution ever resets the flag: every mock in the post-resolution list is
either one of the previous mocks unchanged or the marked copy (with
`Triggered = true`) of one of them. -/
theorem C2_once_triggered_permanent (mc : MockCatcher) (q : Str) (args : List GoValue) :
    (∀ fr : FakeResponse, fr.Once = true → fr.Triggered = true →
        fr.IsMatch q args = false)
    ∧ (∀ fr' ∈ (mc.FindResponse q args).1.Mocks,
        fr' ∈ mc.Mocks ∨ ∃ fr ∈ mc.Mocks, fr' = fr.MarkAsTriggered)
    ∧ (∀ fr : FakeResponse, fr.MarkAsTriggered.Triggered = true) := by
  refine ⟨?_, ?_, fun fr => rfl⟩
  · intro fr ho ht
    unfold FakeResponse.IsMatch
    rw [ho, ht]
    simp
  · cases htf : triggerFirst (normalize q) args (sortMocks mc.Mocks) with
    | some pr =>
      obtain ⟨mocks', w⟩ := pr
      rw [MockCatcher.FindResponse, FindResponseWith_found htf]
      obtain ⟨l₁, w₀, l₂, e1, e2, e3, e4, e5⟩ := triggerFirst_some htf
      intro fr' hm
      simp only [] at hm
      rw [e2] at hm
      rcases List.mem_append.mp hm with h1 | h2
      · left
        rw [← mem_sortMocks (l := mc.Mocks), e1]
        exact List.mem_append_left _ h1
      · rcases List.mem_cons.mp h2 with rfl | h2
        · right
          refine ⟨w₀, ?_, rfl⟩
          rw [← mem_sortMocks (l := mc.Mocks), e1]
          simp
        · left
          rw [← mem_sortMocks (l := mc.Mocks), e1]
          exact List.mem_append_right _ (List.mem_cons_of_mem _ h2)
    | none =>
      rw [MockCatcher.FindResponse, FindResponseWith_none htf]
      intro fr' hm
      left
      exact mem_sortMocks.mp hm

/-- A once mock that has already been triggered. -/
def wOnceMock : FakeResponse :=
  { dummyResponse with Once := true, Triggered := true }

/-- C2 witness: the exhausted once mock is ineligible for a concrete query. -/
theorem C2_once_triggered_permanent_witness :
    wOnceMock.IsMatch ('Q' :: []) [] = false :=
  (C2_once_triggered_permanent wCatcher ('Q' :: []) []).1 wOnceMock rfl rfl

/-! ### The execution-path claims -/

/-- C5: with the statement open and the exec hook silent, an INSERT yields
the scalar result with the configured insert id (or the non-zero generated
value when none was configured) and affected count 1; UPDATE and DELETE
yield the configured affected count; any other command kind fails with the
unsupported-command error. -/
theorem C5_exec_command_results (smt : FakeStmt) (mc : MockCatcher)
    (args : List GoValue) (gen : Int) (fr : FakeResponse)
    (hclosed : smt.closed = false)
    (hfound : (mc.FindResponse smt.q args).2 = .found fr
        ∨ (mc.FindResponse smt.q args).2 = .fallback fr)
    (hhook : execHookFires fr = false)
    (hgen : gen ≠ 0) :
    (smt.ExecContext mc args gen).2 = execDispatch fr smt.command smt.q args gen
    ∧ (smt.command = "INSERT" → fr.LastInsertId ≠ 0 →
        (execDispatch fr smt.command smt.q args gen).1 = .fakeResult fr.LastInsertId 1)
    ∧ (smt.command = "INSERT" → fr.LastInsertId = 0 →
        (execDispatch fr smt.command smt.q args gen).1 = .fakeResult gen 1 ∧ gen ≠ 0)
    ∧ (smt.command = "UPDATE" ∨ smt.command = "DELETE" →
        (execDispatch fr smt.command smt.q args gen).1
          = .rowsAffectedRes fr.RowsAffected)
    ∧ (smt.command ≠ "INSERT" → smt.command ≠ "UPDATE" → smt.command ≠ "DELETE" →
        (execDispatch fr smt.command smt.q args gen).1 = .unsupported smt.command) := by
  refine ⟨?_, ?_, ?_, ?_, ?_⟩
  · unfold FakeStmt.ExecContext
    rw [if_neg (by simp [hclosed])]
    rcases hpr : mc.FindResponse smt.q args with ⟨mc2, res⟩
    rcases hfound with hf | hf <;> rw [hpr] at hf <;> simp only [] at hf <;>
      rw [hf] <;> rfl
  · intro hc hid
    rw [hc]
    simp [execDispatch, execSwitch, hhook, hid]
  · intro hc hid
    rw [hc]
    exact ⟨by simp [execDispatch, execSwitch, hhook, hid], hgen⟩
  · intro hc
    rcases hc with hc | hc <;> rw [hc] <;> simp [execDispatch, execSwitch, hhook]
  · intro h1 h2 h3
    simp [execDispatch, execSwitch, hhook, h1, h2, h3]

/-- C5 witness: a concrete INSERT against the catch-all catcher, with no
configured insert id, returns the generated id 1 with affected count 1. -/
theorem C5_exec_command_results_witness :
    ((⟨[], "INSERT", false⟩ : FakeStmt).ExecContext wCatcher [] 1).2
      = execDispatch wMock.MarkAsTriggered "INSERT" [] [] 1
    ∧ (execDispatch wMock.MarkAsTriggered "INSERT" [] [] 1).1 = .fakeResult 1 1
    ∧ (1 : Int) ≠ 0 := by
  have h := C5_exec_command_results ⟨[], "INSERT", false⟩ wCatcher [] 1
    wMock.MarkAsTriggered rfl (Or.inl (by decide)) rfl (by decide)
  exact ⟨h.1, (h.2.2.1 rfl rfl).1, (h.2.2.1 rfl rfl).2⟩

/-- C6: each execution path fails with the broken-connection error exactly
when its own hook fires, and each dispatch reads only its own hook (plus
the fields of its own result shape): changing the other path's hook can
never change it. -/
theorem C6_exception_hooks_per_path (fr fr₂ : FakeResponse) (command : String)
    (q : Str) (args : List GoValue) (gen : Int) :
    ((execDispatch fr command q args gen).1 = .badConn ↔ execHookFires fr = true)
    ∧ ((queryDispatch fr q args).1 = .badConn ↔ queryHookFires fr = true)
    ∧ (execHookFires fr₂ = execHookFires fr → fr₂.Callback = fr.Callback →
        fr₂.LastInsertId = fr.LastInsertId → fr₂.RowsAffected = fr.RowsAffected →
        execDispatch fr₂ command q args gen = execDispatch fr command q args gen)
    ∧ (queryHookFires fr₂ = queryHookFires fr → fr₂.Callback = fr.Callback →
        fr₂.Response = fr.Response →
        queryDispatch fr₂ q args = queryDispatch fr q args) := by
  refine ⟨?_, ?_, ?_, ?_⟩
  · constructor
    · intro h
      by_cases hk : execHookFires fr = true
      · exact hk
      · exfalso
        rw [execDispatch, if_neg hk] at h
        simp only [] at h
        revert h
        unfold execSwitch
        split_ifs <;> simp
    · intro hk
      rw [execDispatch, if_pos hk]
  · constructor
    · intro h
      by_cases hk : queryHookFires fr = true
      · exact hk
      · exfalso
        rw [queryDispatch, if_neg hk] at h
        cases hm : fr.Response.mapM (materializeRow (firstRowCols fr.Response)) <;>
          rw [hm] at h <;> simp at h
    · intro hk
      rw [queryDispatch, if_pos hk]
  · intro h1 h2 h3 h4
    simp only [execDispatch, execSwitch, callbackEvents, h1, h2, h3, h4]
  · intro h1 h2 h3
    simp only [queryDispatch, callbackEvents, firstRowCols, h1, h2, h3]

/-- A mock with a firing exec-path hook and a registered callback. -/
def wExcExecMock : FakeResponse :=
  { dummyResponse with Excs := some ⟨none, some true⟩, Callback := some 3 }

/-- The same mock with the query-path hook additionally set to fire. -/
def wExcExecMock₂ : FakeResponse :=
  { wExcExecMock with Excs := some ⟨some true, some true⟩ }

/-- C6 witness: at concrete inputs the exec path fails iff its hook fires,
and flipping only the query hook leaves the exec dispatch unchanged. -/
theorem C6_exception_hooks_per_path_witness :
    execDispatch wExcExecMock₂ "UPDATE" [] [] 1
      = execDispatch wExcExecMock "UPDATE" [] [] 1
    ∧ ((execDispatch wExcExecMock "UPDATE" [] [] 1).1 = .badConn
        ↔ execHookFires wExcExecMock = true) := by
  have h := C6_exception_hooks_per_path wExcExecMock wExcExecMock₂ "UPDATE" [] [] 1
  exact ⟨h.2.2.1 (by decide) rfl rfl rfl, h.1⟩

theorem mapM_option_congr {α β : Type} (f : α → Option β) (g : α → β) :
    ∀ (l : List α), (∀ x ∈ l, f x = some (g x)) → l.mapM f = some (l.map g) := by
  intro l
  induction l with
  | nil => intro _; rfl
  | cons x t ih =>
    intro h
    rw [List.mapM_cons, h x (List.mem_cons_self x t),
      ih (fun z hz => h z (List.mem_cons_of_mem x hz))]
    rfl

theorem mapM_option_none {α β : Type} (f : α → Option β) :
    ∀ {l : List α} {x : α}, x ∈ l → f x = none → l.mapM f = none := by
  intro l
  induction l with
  | nil => intro x hx; simp at hx
  | cons a t ih =>
    intro x hx hfx
    rcases List.mem_cons.mp hx with rfl | hx
    · rw [List.mapM_cons, hfx]
      rfl
    · rw [List.mapM_cons]
      cases hfa : f a
      · rfl
      · rw [ih hx hfx]
        rfl

/-- C7 (amended): with the query hook silent, the cursor's columns are the
first row's keys; when every row holds every such column as a string, each
row is projected onto that column list in order, rows in the configured
sequence; but a row that misses one of those columns makes materialization
panic (it does not yield an empty cell). -/
theorem C7_row_materialization (fr : FakeResponse) (q : Str) (args : List GoValue)
    (hhook : queryHookFires fr = false) :
    ((∀ record ∈ fr.Response, ∀ col ∈ firstRowCols fr.Response,
        (cellOf record col).isSome = true) →
      (queryDispatch fr q args).1
        = .cursor (firstRowCols fr.Response)
            (fr.Response.map (fun record =>
              (firstRowCols fr.Response).map (fun col => (cellOf record col).getD []))))
    ∧ ((∃ record ∈ fr.Response, ∃ col ∈ firstRowCols fr.Response,
          lookupRec record col = none) →
        (queryDispatch fr q args).1 = .panicked) := by
  constructor
  · intro hall
    have hrow : ∀ record ∈ fr.Response,
        materializeRow (firstRowCols fr.Response) record
          = some ((firstRowCols fr.Response).map
              (fun col => (cellOf record col).getD [])) := by
      intro record hrec
      apply mapM_option_congr
      intro col hcol
      obtain ⟨s, hs⟩ := Option.isSome_iff_exists.mp (hall record hrec col hcol)
      rw [hs]
      rfl
    have hmm := mapM_option_congr (materializeRow (firstRowCols fr.Response))
      (fun record => (firstRowCols fr.Response).map
        (fun col => (cellOf record col).getD [])) fr.Response hrow
    rw [queryDispatch, if_neg (by simp [hhook]), hmm]
  · intro hbad
    obtain ⟨record, hrec, col, hcol, hnone⟩ := hbad
    have hcell : cellOf record col = none := by
      unfold cellOf
      rw [hnone]
    have hrow : materializeRow (firstRowCols fr.Response) record = none :=
      mapM_option_none (cellOf record) hcol hcell
    have hmm : fr.Response.mapM (materializeRow (firstRowCols fr.Response)) = none :=
      mapM_option_none (materializeRow (firstRowCols fr.Response)) hrec hrow
    rw [queryDispatch, if_neg (by simp [hhook]), hmm]

/-- A response whose second row misses the column `b` of the first row. -/
def frC7 : FakeResponse :=
  { dummyResponse with
      Response := [
        [(('a' :: []), .str ('1' :: [])), (('b' :: []), .str ('2' :: []))],
        [(('a' :: []), .str ('3' :: []))]] }

/-- A catcher holding only `frC7`. -/
def mcC7 : MockCatcher :=
  { Mocks := [frC7], ReceivedQueries := fun _ => 0,
    NoMatchingQueries := fun _ => 0, Logging := false,
    PanicOnEmptyResponse := false }

/-- C7 counterexample: a row that misses one of the first row's columns
makes the whole read execution panic instead of producing a cursor with an
undefined/empty cell. -/
theorem C7_missing_column_panics :
    ((⟨[], "SELECT", false⟩ : FakeStmt).QueryContext mcC7 []).2.1
      = .panicked := by decide

/-- A response whose rows all carry the single column `a` as strings. -/
def frOkC7 : FakeResponse :=
  { dummyResponse with
      Response := [
        [(('a' :: []), .str ('1' :: []))],
        [(('a' :: []), .str ('2' :: []))]] }

/-- C7 witness: with every column present as a string, the cursor holds the
first row's columns and the projected rows in order. -/
theorem C7_row_materialization_witness :
    (queryDispatch frOkC7 [] []).1
      = .cursor (firstRowCols frOkC7.Response)
          (frOkC7.Response.map (fun record =>
            (firstRowCols frOkC7.Response).map
              (fun col => (cellOf record col).getD []))) :=
  (C7_row_materialization frOkC7 [] [] rfl).1 (by decide)

/-- C9 (amended): the callback fires with the dispatched query text and the
arguments for every outcome shape the dispatch actually returns (scalar
result, rows-affected, unsupported command, cursor), but it does NOT fire
when the path's exception hook triggers, nor when row materialization
panics. -/
theorem C9_callback_invocation (fr : FakeResponse) (command : String) (q : Str)
    (args : List GoValue) (gen : Int) :
    (execHookFires fr = false →
        (execDispatch fr command q args gen).2 = callbackEvents fr q args)
    ∧ (execHookFires fr = true → (execDispatch fr command q args gen).2 = [])
    ∧ (∀ rows, queryHookFires fr = false →
        fr.Response.mapM (materializeRow (firstRowCols fr.Response)) = some rows →
        (queryDispatch fr q args).2 = callbackEvents fr q args)
    ∧ (queryHookFires fr = true → (queryDispatch fr q args).2 = [])
    ∧ (queryHookFires fr = false →
        fr.Response.mapM (materializeRow (firstRowCols fr.Response)) = none →
        (queryDispatch fr q args).2 = [])
    ∧ (∀ cid, fr.Callback = some cid → callbackEvents fr q args = [(cid, q, args)])
    ∧ (fr.Callback = none → callbackEvents fr q args = []) := by
  refine ⟨?_, ?_, ?_, ?_, ?_, ?_, ?_⟩
  · intro hk
    rw [execDispatch, if_neg (by simp [hk])]
  · intro hk
    rw [execDispatch, if_pos hk]
  · intro rows hk hm
    rw [queryDispatch, if_neg (by simp [hk]), hm]
  · intro hk
    rw [queryDispatch, if_pos hk]
  · intro hk hm
    rw [queryDispatch, if_neg (by simp [hk]), hm]
  · intro cid hc
    rw [callbackEvents, hc]
  · intro hc
    rw [callbackEvents, hc]

/-- A mock that only registers a callback. -/
def wCbMock : FakeResponse := { dummyResponse with Callback := some 5 }

/-- C9 witness: with no hook firing, the exec path records exactly one
callback invocation with the query and arguments given to it. -/
theorem C9_callback_invocation_witness :
    (execDispatch wCbMock "UPDATE" [] [] 1).2 = callbackEvents wCbMock [] []
    ∧ callbackEvents wCbMock [] [] = [(5, [], [])] := by
  have h := C9_callback_invocation wCbMock "UPDATE" [] [] 1
  exact ⟨h.1 rfl, h.2.2.2.2.2.1 5 rfl⟩

/-- A mock with a firing exec hook and a registered callback, and the
catcher holding only it. -/
def wC9Mock : FakeResponse :=
  { dummyResponse with Excs := some ⟨none, some true⟩, Callback := some 7 }

def mcC9 : MockCatcher :=
  { Mocks := [wC9Mock], ReceivedQueries := fun _ => 0,
    NoMatchingQueries := fun _ => 0, Logging := false,
    PanicOnEmptyResponse := false }

/-- C9 counterexample: an execution whose resolved outcome declares a
callback AND whose exec-path exception trigger fires returns the
broken-connection error WITHOUT invoking the callback — refuting
"invoked ... regardless of outcome kind (... or exception trigger)". -/
theorem C9_exception_skips_callback :
    wC9Mock.Callback = some 7
    ∧ ((⟨[], "UPDATE", false⟩ : FakeStmt).ExecContext mcC9 [] 1).2.1 = .badConn
    ∧ ((⟨[], "UPDATE", false⟩ : FakeStmt).ExecContext mcC9 [] 1).2.2 = [] := by
  decide

end GoMocket
